import Mathlib

/-
Verification of the flicker-noise DPI helpers.

Streaming generator: src/dpi/dpi_flicker_noise.c implements the
Voss-McCartney algorithm over 10 noise sources refreshed at power-of-two
intervals, driven by the C `rand()` stream seeded once with a fixed seed.
We embed the `rand()` stream abstractly as a function `r : Nat -> Nat`
producing raw draws in `[0, RAND_MAX]`; the seeded stream is the sequence
of draws, consumed left to right, and `srand(SEED)` restarts consumption
at position 0.  Doubles are modelled as rationals (exact arithmetic).

Batch generator: src/dpi/dpi_flicker_noise_batch.c preloads up to 4096
doubles from a binary resource and replays them with wraparound.  The
resource is modelled as `Option (List Rat)` (`none` = file absent, `some ds`
= file present with content `ds`); the fixed-capacity static array is
modelled as a function `Nat -> Rat` which is zero-initialised, matching
C static storage.  Diagnostic emissions to stderr are counted in the state.
-/

namespace Streaming

/-- N_SOURCES from dpi_flicker_noise.c -/
def N_SOURCES : ℕ := 10

/-- TARGET_RMS from dpi_flicker_noise.c (0.25) -/
def TARGET_RMS : ℚ := 1 / 4

/-- RAW_RMS from dpi_flicker_noise.c (1.757) -/
def RAW_RMS : ℚ := 1757 / 1000

/-- RAND_MAX of the C library (glibc value) -/
def RAND_MAX : ℕ := 2147483647

/-- One more than ULONG_MAX: the C `unsigned long` sample counter wraps
modulo this value (64 bits on the simulation target). -/
def ULONG_MOD : ℕ := 2 ^ 64

/-- The expression `2.0 * ((double)rand() / RAND_MAX) - 1.0` applied to a
raw draw `n`. -/
def toUnit (n : ℕ) : ℚ := 2 * ((n : ℚ) / (RAND_MAX : ℚ)) - 1

/-- The static state of dpi_flicker_noise.c: the 10 noise sources, the
sample counter, the position reached in the seeded rand() stream, and the
initialization flag. -/
structure FlickerState where
  noise_sources : List ℚ
  sample_counter : ℕ
  rng_pos : ℕ
  initialized : Bool
deriving Repr, DecidableEq

/-- State of the zero-initialised static storage before any call. -/
def freshS : FlickerState :=
  { noise_sources := List.replicate N_SOURCES 0
    sample_counter := 0
    rng_pos := 0
    initialized := false }

/-- init_flicker_noise: srand(SEED) restarts the stream at position 0,
then all 10 sources are drawn; the counter is reset and the flag set. -/
def init_flicker_noise (r : ℕ → ℕ) : FlickerState :=
  { noise_sources := (List.range N_SOURCES).map (fun i => toUnit (r i))
    sample_counter := 0
    rng_pos := N_SOURCES
    initialized := true }

/-- The update loop of dpi_flicker_noise: source `i` is refreshed when
`(sample_counter & ((1UL << i) - 1)) == 0`, consuming one draw from the
stream; the loop walks the source list with loop index `i` starting at `a`
and stream position `pos`, returning the updated list and the new stream
position. -/
def updateLoop (r : ℕ → ℕ) (counter : ℕ) : ℕ → ℕ → List ℚ → List ℚ × ℕ
  | _, pos, [] => ([], pos)
  | a, pos, x :: xs =>
    if counter &&& (2 ^ a - 1) = 0 then
      let res := updateLoop r counter (a + 1) (pos + 1) xs
      (toUnit (r pos) :: res.1, res.2)
    else
      let res := updateLoop r counter (a + 1) pos xs
      (x :: res.1, res.2)

/-- The lazy-init guard `if (!initialized) init_flicker_noise();` at the
top of dpi_flicker_noise: the state seen by the rest of the body. -/
def preS (r : ℕ → ℕ) (s : FlickerState) : FlickerState :=
  if s.initialized then s else init_flicker_noise r

/-- dpi_flicker_noise: initialise on first call, refresh the sources due
at this counter value, sum the sources, bump the counter (the C counter
is an `unsigned long`, so the increment wraps modulo 2^64), and return
the scaled sum together with the new state. -/
def dpi_flicker_noise (r : ℕ → ℕ) (s : FlickerState) : ℚ × FlickerState :=
  let s0 := preS r s
  let u := updateLoop r s0.sample_counter 0 s0.rng_pos s0.noise_sources
  (u.1.sum * (TARGET_RMS / RAW_RMS),
   { noise_sources := u.1
     sample_counter := (s0.sample_counter + 1) % ULONG_MOD
     rng_pos := u.2
     initialized := true })

/-- State after `k` calls to dpi_flicker_noise starting from `s`. -/
def stepsS (r : ℕ → ℕ) (s : FlickerState) : ℕ → FlickerState
  | 0 => s
  | k + 1 => (dpi_flicker_noise r (stepsS r s k)).2

/-- Value returned by call number `k` (0-indexed) starting from `s`. -/
def outS (r : ℕ → ℕ) (s : FlickerState) (k : ℕ) : ℚ :=
  (dpi_flicker_noise r (stepsS r s k)).1

/-- Number of draws consumed by the update loop among loop indices
`a, a+1, ..., a+j-1` for counter value `counter`. -/
def drawsFrom (counter : ℕ) : ℕ → ℕ → ℕ
  | _, 0 => 0
  | a, j + 1 =>
    (if counter &&& (2 ^ a - 1) = 0 then 1 else 0) + drawsFrom counter (a + 1) j

/-- Well-formedness of the streaming state: ten sources, each in `[-1, 1]`. -/
def GoodS (s : FlickerState) : Prop :=
  s.noise_sources.length = N_SOURCES ∧ ∀ x ∈ s.noise_sources, |x| ≤ 1

end Streaming

namespace Batch

/-- MAX_SAMPLES from dpi_flicker_noise_batch.c -/
def MAX_SAMPLES : ℕ := 4096

/-- The static state of dpi_flicker_noise_batch.c: the fixed-capacity
sample array (zero-initialised static storage, modelled as a total
function), the read cursor, the initialization flag, the number of
samples actually loaded, and a count of diagnostic blocks emitted to
stderr. -/
structure BatchState where
  preloaded_noise : ℕ → ℚ
  current_index : ℕ
  initialized : Bool
  num_samples_loaded : ℕ
  diagCount : ℕ

/-- State of the zero-initialised static storage before any call. -/
def freshB : BatchState :=
  { preloaded_noise := fun _ => 0
    current_index := 0
    initialized := false
    num_samples_loaded := 0
    diagCount := 0 }

/-- The binary resource: `none` when fopen fails (file absent), `some ds`
when the file holds the doubles `ds` (fread then returns
`min ds.length MAX_SAMPLES` samples). -/
def Resource : Type := Option (List ℚ)

/-- init_flicker_noise_batch: on a missing file, emit one diagnostic
block, memset the array to zeros, set num_samples_loaded to MAX_SAMPLES
and mark initialized (the cursor is untouched on this early return); on a
present file, fread overwrites the first `min ds.length MAX_SAMPLES`
slots, one diagnostic block is emitted (warning on a partial read,
info otherwise), the cursor is reset and the flag set. -/
def init_flicker_noise_batch (res : Option (List ℚ)) (s : BatchState) : BatchState :=
  match res with
  | none =>
    { s with
      preloaded_noise := fun _ => 0
      num_samples_loaded := MAX_SAMPLES
      initialized := true
      diagCount := s.diagCount + 1 }
  | some ds =>
    let n := min ds.length MAX_SAMPLES
    { preloaded_noise := fun i => if i < n then ds.getD i 0 else s.preloaded_noise i
      current_index := 0
      initialized := true
      num_samples_loaded := n
      diagCount := s.diagCount + 1 }

/-- The lazy-load guard `if (!initialized) init_flicker_noise_batch();`
at the top of dpi_flicker_noise_batch (the loadIfNeeded operation of the
specification). -/
def load_if_needed (res : Option (List ℚ)) (s : BatchState) : BatchState :=
  if s.initialized then s else init_flicker_noise_batch res s

/-- dpi_flicker_noise_batch: ensure the load ran, wrap the cursor to 0
when it has reached num_samples_loaded, then return the sample under the
cursor and post-increment the cursor. -/
def dpi_flicker_noise_batch (res : Option (List ℚ)) (s : BatchState) : ℚ × BatchState :=
  let s0 := load_if_needed res s
  let idx := if s0.num_samples_loaded ≤ s0.current_index then 0 else s0.current_index
  (s0.preloaded_noise idx, { s0 with current_index := idx + 1 })

/-- State after `k` calls to dpi_flicker_noise_batch starting from `s`. -/
def stepsB (res : Option (List ℚ)) (s : BatchState) : ℕ → BatchState
  | 0 => s
  | k + 1 => (dpi_flicker_noise_batch res (stepsB res s k)).2

/-- State after `k` calls starting from the fresh static state. -/
def bStateAt (res : Option (List ℚ)) (k : ℕ) : BatchState :=
  stepsB res freshB k

/-- Value returned by call number `k` (0-indexed) starting from `s`. -/
def outB (res : Option (List ℚ)) (s : BatchState) (k : ℕ) : ℚ :=
  (dpi_flicker_noise_batch res (stepsB res s k)).1

/-- Value returned by call number `k` starting from the fresh state. -/
def outAtB (res : Option (List ℚ)) (k : ℕ) : ℚ :=
  outB res freshB k

/-- The cursor position at which call number `k` actually reads: the
post-increment leaves the successor of the read position in the state,
so it is the cursor after call `k`, minus one. -/
def readIdxAt (res : Option (List ℚ)) (k : ℕ) : ℕ :=
  (bStateAt res (k + 1)).current_index - 1

/-- The value num_samples_loaded takes once the load has run. -/
def loadedOf (res : Option (List ℚ)) : ℕ :=
  match res with
  | none => MAX_SAMPLES
  | some ds => min ds.length MAX_SAMPLES

end Batch

namespace Streaming

lemma toUnit_abs_le {n : ℕ} (h : n ≤ RAND_MAX) : |toUnit n| ≤ 1 := by
  have hM : (0 : ℚ) < (RAND_MAX : ℚ) := by norm_num [RAND_MAX]
  have h0 : (0 : ℚ) ≤ (n : ℚ) / (RAND_MAX : ℚ) := div_nonneg (by positivity) hM.le
  have h1 : (n : ℚ) / (RAND_MAX : ℚ) ≤ 1 := by
    rw [div_le_one hM]; exact_mod_cast h
  unfold toUnit
  rw [abs_le]
  constructor <;> linarith

lemma sum_abs_le (xs : List ℚ) (h : ∀ x ∈ xs, |x| ≤ 1) :
    |xs.sum| ≤ (xs.length : ℚ) := by
  induction xs with
  | nil => simp
  | cons x xs ih =>
    have hx : |x| ≤ 1 := h x (List.mem_cons_self x xs)
    have hxs := ih (fun y hy => h y (List.mem_cons_of_mem _ hy))
    calc |(x :: xs).sum| = |x + xs.sum| := by simp
      _ ≤ |x| + |xs.sum| := abs_add _ _
      _ ≤ 1 + xs.length := by linarith
      _ = ((x :: xs).length : ℚ) := by push_cast [List.length_cons]; ring

lemma updateLoop_length (r : ℕ → ℕ) (c : ℕ) :
    ∀ (xs : List ℚ) (a pos : ℕ), (updateLoop r c a pos xs).1.length = xs.length := by
  intro xs
  induction xs with
  | nil => intro a pos; simp [updateLoop]
  | cons x xs ih =>
    intro a pos
    by_cases h : c % 2 ^ a = 0 <;> simp [updateLoop, h, ih]

lemma updateLoop_pos (r : ℕ → ℕ) (c : ℕ) :
    ∀ (xs : List ℚ) (a pos : ℕ),
      (updateLoop r c a pos xs).2 = pos + drawsFrom c a xs.length := by
  intro xs
  induction xs with
  | nil => intro a pos; simp [updateLoop, drawsFrom]
  | cons x xs ih =>
    intro a pos
    by_cases h : c % 2 ^ a = 0 <;>
      simp [updateLoop, drawsFrom, h, ih] <;> omega

end Streaming

namespace Streaming

lemma updateLoop_getD (r : ℕ → ℕ) (c : ℕ) :
    ∀ (xs : List ℚ) (a pos j : ℕ), j < xs.length →
      (updateLoop r c a pos xs).1.getD j 0 =
        if c % 2 ^ (a + j) = 0 then toUnit (r (pos + drawsFrom c a j))
        else xs.getD j 0 := by
  intro xs
  induction xs with
  | nil => intro a pos j h; simp at h
  | cons x xs ih =>
    intro a pos j hj
    cases j with
    | zero =>
      by_cases h : c % 2 ^ a = 0 <;> simp [updateLoop, drawsFrom, h]
    | succ j =>
      have hj' : j < xs.length := by simpa using hj
      have ea : a + (j + 1) = a + 1 + j := by omega
      by_cases h : c % 2 ^ a = 0
      · simp only [updateLoop, Nat.and_pow_two_sub_one_eq_mod, if_pos h,
          List.getD_cons_succ]
        rw [ih (a + 1) (pos + 1) j hj', ea]
        have ed : drawsFrom c a (j + 1) = 1 + drawsFrom c (a + 1) j := by
          simp [drawsFrom, h]
        rw [ed, show pos + (1 + drawsFrom c (a + 1) j)
              = pos + 1 + drawsFrom c (a + 1) j from by omega]
      · simp only [updateLoop, Nat.and_pow_two_sub_one_eq_mod, if_neg h,
          List.getD_cons_succ]
        rw [ih (a + 1) pos j hj', ea]
        have ed : drawsFrom c a (j + 1) = drawsFrom c (a + 1) j := by
          simp [drawsFrom, h]
        rw [ed]

lemma updateLoop_congr (r r2 : ℕ → ℕ) (c : ℕ) :
    ∀ (xs : List ℚ) (a pos : ℕ), (∀ n, pos ≤ n → r n = r2 n) →
      updateLoop r c a pos xs = updateLoop r2 c a pos xs := by
  intro xs
  induction xs with
  | nil => intro a pos _; simp [updateLoop]
  | cons x xs ih =>
    intro a pos hr
    by_cases h : c % 2 ^ a = 0
    · simp only [updateLoop, Nat.and_pow_two_sub_one_eq_mod, if_pos h]
      rw [ih (a + 1) (pos + 1) (fun n hn => hr n (by omega)), hr pos le_rfl]
    · simp only [updateLoop, Nat.and_pow_two_sub_one_eq_mod, if_neg h]
      rw [ih (a + 1) pos hr]

lemma updateLoop_zero_indep (r : ℕ → ℕ) :
    ∀ (xs ys : List ℚ) (a pos : ℕ), xs.length = ys.length →
      updateLoop r 0 a pos xs = updateLoop r 0 a pos ys := by
  intro xs
  induction xs with
  | nil =>
    intro ys a pos h
    cases ys with
    | nil => rfl
    | cons y ys => simp at h
  | cons x xs ih =>
    intro ys a pos h
    cases ys with
    | nil => simp at h
    | cons y ys =>
      have h' : xs.length = ys.length := by simpa using h
      simp only [updateLoop, Nat.zero_mod, Nat.and_pow_two_sub_one_eq_mod]
      rw [ih ys (a + 1) (pos + 1) h']
      simp

lemma updateLoop_bounded (r : ℕ → ℕ) (hr : ∀ n, r n ≤ RAND_MAX) (c : ℕ) :
    ∀ (xs : List ℚ) (a pos : ℕ), (∀ x ∈ xs, |x| ≤ 1) →
      ∀ y ∈ (updateLoop r c a pos xs).1, |y| ≤ 1 := by
  intro xs
  induction xs with
  | nil => intro a pos _ y hy; simp [updateLoop] at hy
  | cons x xs ih =>
    intro a pos hxs y hy
    have hx : |x| ≤ 1 := hxs x (List.mem_cons_self x xs)
    have htail : ∀ z ∈ xs, |z| ≤ 1 := fun z hz => hxs z (List.mem_cons_of_mem _ hz)
    by_cases h : c % 2 ^ a = 0
    · simp only [updateLoop, Nat.and_pow_two_sub_one_eq_mod, if_pos h,
        List.mem_cons] at hy
      rcases hy with rfl | hy
      · exact toUnit_abs_le (hr pos)
      · exact ih (a + 1) (pos + 1) htail y hy
    · simp only [updateLoop, Nat.and_pow_two_sub_one_eq_mod, if_neg h,
        List.mem_cons] at hy
      rcases hy with rfl | hy
      · exact hx
      · exact ih (a + 1) pos htail y hy

end Streaming

namespace Streaming

lemma goodS_fresh : GoodS freshS := by
  constructor
  · simp [freshS]
  · intro x hx
    rw [List.eq_of_mem_replicate hx]
    norm_num

lemma goodS_init (r : ℕ → ℕ) (hr : ∀ n, r n ≤ RAND_MAX) :
    GoodS (init_flicker_noise r) := by
  constructor
  · simp [init_flicker_noise]
  · intro x hx
    simp [init_flicker_noise] at hx
    obtain ⟨i, hi, rfl⟩ := hx
    exact toUnit_abs_le (hr i)

lemma goodS_preS (r : ℕ → ℕ) (hr : ∀ n, r n ≤ RAND_MAX) (s : FlickerState)
    (h : GoodS s) : GoodS (preS r s) := by
  rw [preS]
  split
  · exact h
  · exact goodS_init r hr

lemma goodS_step (r : ℕ → ℕ) (hr : ∀ n, r n ≤ RAND_MAX) (s : FlickerState)
    (h : GoodS s) : GoodS (dpi_flicker_noise r s).2 := by
  have h0 := goodS_preS r hr s h
  constructor
  · show (updateLoop r (preS r s).sample_counter 0 (preS r s).rng_pos
        (preS r s).noise_sources).1.length = N_SOURCES
    rw [updateLoop_length]
    exact h0.1
  · exact updateLoop_bounded r hr _ _ _ _ h0.2

lemma goodS_steps (r : ℕ → ℕ) (hr : ∀ n, r n ≤ RAND_MAX) (k : ℕ) :
    GoodS (stepsS r freshS k) := by
  induction k with
  | zero => exact goodS_fresh
  | succ k ih => exact goodS_step r hr _ ih

lemma outS_eq (r : ℕ → ℕ) (s : FlickerState) (k : ℕ) :
    outS r s k
      = (updateLoop r (preS r (stepsS r s k)).sample_counter 0
          (preS r (stepsS r s k)).rng_pos
          (preS r (stepsS r s k)).noise_sources).1.sum
        * (TARGET_RMS / RAW_RMS) := rfl

/-- C6: the streaming dpi_flicker_noise never returns a value of absolute
magnitude above `10 * TARGET_RMS / RAW_RMS` (about 1.423): each of the 10
sources stays in `[-1, 1]`, so the raw sum stays in `[-10, 10]` before
scaling. -/
theorem streaming_output_bound (r : ℕ → ℕ) (hr : ∀ n, r n ≤ RAND_MAX) (k : ℕ) :
    |outS r freshS k| ≤ 10 * (TARGET_RMS / RAW_RMS) := by
  have hg := goodS_steps r hr k
  have h0 := goodS_preS r hr _ hg
  have hb := updateLoop_bounded r hr (preS r (stepsS r freshS k)).sample_counter
    (preS r (stepsS r freshS k)).noise_sources 0
    (preS r (stepsS r freshS k)).rng_pos h0.2
  have hsum : |(updateLoop r (preS r (stepsS r freshS k)).sample_counter 0
      (preS r (stepsS r freshS k)).rng_pos
      (preS r (stepsS r freshS k)).noise_sources).1.sum| ≤ 10 := by
    have h1 := sum_abs_le _ hb
    rw [updateLoop_length, h0.1] at h1
    simpa [N_SOURCES] using h1
  rw [outS_eq, abs_mul]
  have hc : |TARGET_RMS / RAW_RMS| = TARGET_RMS / RAW_RMS := by
    norm_num [TARGET_RMS, RAW_RMS]
  rw [hc]
  have hpos : (0 : ℚ) ≤ TARGET_RMS / RAW_RMS := by norm_num [TARGET_RMS, RAW_RMS]
  exact mul_le_mul_of_nonneg_right hsum hpos

/-- Witness for streaming_output_bound at the constant-zero stream. -/
theorem streaming_output_bound_witness :
    |outS (fun _ => 0) freshS 0| ≤ 10 * (TARGET_RMS / RAW_RMS) :=
  streaming_output_bound (fun _ => 0) (fun _ => Nat.zero_le _) 0

lemma mod_add_one (a M : ℕ) : (a % M + 1) % M = (a + 1) % M := by
  conv_rhs => rw [← Nat.mod_add_div a M]
  rw [Nat.add_right_comm, Nat.add_mul_mod_self_left]

lemma counter_after (r : ℕ → ℕ) :
    ∀ k, (stepsS r freshS (k + 1)).sample_counter = (k + 1) % ULONG_MOD
      ∧ (stepsS r freshS (k + 1)).initialized = true := by
  intro k
  induction k with
  | zero => exact ⟨rfl, rfl⟩
  | succ k ih =>
    obtain ⟨hc, hi⟩ := ih
    have hpre : preS r (stepsS r freshS (k + 1)) = stepsS r freshS (k + 1) := by
      rw [preS]
      simp [hi]
    refine ⟨?_, rfl⟩
    show ((preS r (stepsS r freshS (k + 1))).sample_counter + 1) % ULONG_MOD
        = (k + 1 + 1) % ULONG_MOD
    rw [hpre, hc, mod_add_one]

/-- C7 fails as stated: the C sample counter is an unsigned long, so on
the call where it stands at ULONG_MAX it wraps to 0 instead of gaining
exactly 1; concretely, after 2^64 calls from the fresh state the counter
is not the counter after 2^64 - 1 calls plus one. -/
theorem streaming_counter_increment_cex :
    ¬ ((stepsS (fun _ => 0) freshS (2 ^ 64)).sample_counter
        = (stepsS (fun _ => 0) freshS (2 ^ 64 - 1)).sample_counter + 1) := by
  have h1 := (counter_after (fun _ => 0) (2 ^ 64 - 1)).1
  have e1 : 2 ^ 64 - 1 + 1 = 2 ^ 64 := by norm_num
  rw [e1] at h1
  have h2 := (counter_after (fun _ => 0) (2 ^ 64 - 2)).1
  have e2 : 2 ^ 64 - 2 + 1 = 2 ^ 64 - 1 := by norm_num
  rw [e2] at h2
  intro hcon
  rw [h1, h2] at hcon
  rw [ULONG_MOD, Nat.mod_self, Nat.mod_eq_of_lt (by norm_num)] at hcon
  exact absurd hcon (by norm_num)

/-- C7 (amended): on every call the generator returns the sum of the 10
current (post-update) source values scaled by `TARGET_RMS / RAW_RMS`
(0.25 / 1.757), and advances the sample counter by exactly one modulo
2^64, the width of the C unsigned long: on an initialized state the new
counter is (old + 1) mod 2^64 (an increment by exactly 1 everywhere
except at ULONG_MAX, where it wraps to 0), and from the fresh state,
first call included, the counter after N + 1 calls reads
(N + 1) mod 2^64. -/
theorem streaming_step_formula (r : ℕ → ℕ) (s : FlickerState)
    (hs : s.initialized = true) (k : ℕ) :
    ((dpi_flicker_noise r s).1
        = (dpi_flicker_noise r s).2.noise_sources.sum * (TARGET_RMS / RAW_RMS)
      ∧ (dpi_flicker_noise r s).2.sample_counter
        = (s.sample_counter + 1) % ULONG_MOD)
    ∧ (outS r freshS k
        = (stepsS r freshS (k + 1)).noise_sources.sum * (TARGET_RMS / RAW_RMS)
      ∧ (stepsS r freshS (k + 1)).sample_counter = (k + 1) % ULONG_MOD) := by
  refine ⟨⟨rfl, ?_⟩, rfl, (counter_after r k).1⟩
  show ((preS r s).sample_counter + 1) % ULONG_MOD
      = (s.sample_counter + 1) % ULONG_MOD
  rw [preS]
  simp [hs]

/-- Witness for streaming_step_formula at a concrete initialized state
and a concrete call index. -/
theorem streaming_step_formula_witness :
    (init_flicker_noise (fun _ => 0)).initialized = true
    ∧ ((dpi_flicker_noise (fun _ => 0) (init_flicker_noise (fun _ => 0))).1
        = (dpi_flicker_noise (fun _ => 0)
            (init_flicker_noise (fun _ => 0))).2.noise_sources.sum
          * (TARGET_RMS / RAW_RMS)
      ∧ (dpi_flicker_noise (fun _ => 0)
          (init_flicker_noise (fun _ => 0))).2.sample_counter
        = ((init_flicker_noise (fun _ => 0)).sample_counter + 1) % ULONG_MOD)
    ∧ (outS (fun _ => 0) freshS 2
        = (stepsS (fun _ => 0) freshS (2 + 1)).noise_sources.sum
          * (TARGET_RMS / RAW_RMS)
      ∧ (stepsS (fun _ => 0) freshS (2 + 1)).sample_counter
        = (2 + 1) % ULONG_MOD) :=
  ⟨rfl,
   (streaming_step_formula (fun _ => 0) (init_flicker_noise (fun _ => 0))
     rfl 2).1,
   (streaming_step_formula (fun _ => 0) (init_flicker_noise (fun _ => 0))
     rfl 2).2⟩

end Streaming

namespace Streaming

/-- C2: on every initialized call, source `i` is overwritten with a fresh
draw from the stream exactly when the sample counter is divisible by
`2 ^ i` at the start of the call (the fresh value lies in `[-1, 1]` and
sits at the next unconsumed stream position, offset by the draws taken by
the lower-indexed sources on the same call), and is left unchanged
otherwise. -/
theorem streaming_refresh_cadence (r : ℕ → ℕ) (hr : ∀ n, r n ≤ RAND_MAX)
    (s : FlickerState) (hs : s.initialized = true)
    (hlen : s.noise_sources.length = N_SOURCES) (i : ℕ) (hi : i < N_SOURCES) :
    (s.sample_counter % 2 ^ i = 0 →
      (dpi_flicker_noise r s).2.noise_sources.getD i 0
          = toUnit (r (s.rng_pos + drawsFrom s.sample_counter 0 i))
        ∧ |(dpi_flicker_noise r s).2.noise_sources.getD i 0| ≤ 1)
    ∧ (s.sample_counter % 2 ^ i ≠ 0 →
      (dpi_flicker_noise r s).2.noise_sources.getD i 0
          = s.noise_sources.getD i 0) := by
  have hpre : preS r s = s := by rw [preS]; simp [hs]
  have key := updateLoop_getD r s.sample_counter s.noise_sources 0 s.rng_pos i
    (by rw [hlen]; exact hi)
  rw [zero_add] at key
  have hsources : (dpi_flicker_noise r s).2.noise_sources
      = (updateLoop r s.sample_counter 0 s.rng_pos s.noise_sources).1 := by
    show (updateLoop r (preS r s).sample_counter 0 (preS r s).rng_pos
        (preS r s).noise_sources).1 = _
    rw [hpre]
  constructor
  · intro h
    rw [hsources, key, if_pos h]
    exact ⟨rfl, toUnit_abs_le (hr _)⟩
  · intro h
    rw [hsources, key, if_neg h]

/-- Witness for streaming_refresh_cadence at a concrete call (the call
after initialization, counter 0, source 3). -/
theorem streaming_refresh_cadence_witness :
    (init_flicker_noise (fun _ => 0)).initialized = true
    ∧ (init_flicker_noise (fun _ => 0)).noise_sources.length = N_SOURCES
    ∧ 3 < N_SOURCES
    ∧ ((init_flicker_noise (fun _ => 0)).sample_counter % 2 ^ 3 = 0 →
        (dpi_flicker_noise (fun _ => 0)
            (init_flicker_noise (fun _ => 0))).2.noise_sources.getD 3 0
          = toUnit ((fun _ => 0)
              ((init_flicker_noise (fun _ => 0)).rng_pos
                + drawsFrom (init_flicker_noise (fun _ => 0)).sample_counter 0 3))
        ∧ |(dpi_flicker_noise (fun _ => 0)
            (init_flicker_noise (fun _ => 0))).2.noise_sources.getD 3 0| ≤ 1)
    ∧ ((init_flicker_noise (fun _ => 0)).sample_counter % 2 ^ 3 ≠ 0 →
        (dpi_flicker_noise (fun _ => 0)
            (init_flicker_noise (fun _ => 0))).2.noise_sources.getD 3 0
          = (init_flicker_noise (fun _ => 0)).noise_sources.getD 3 0) :=
  ⟨rfl, rfl, by decide,
   (streaming_refresh_cadence (fun _ => 0) (fun _ => Nat.zero_le _)
     (init_flicker_noise (fun _ => 0)) rfl rfl 3 (by decide)).1,
   (streaming_refresh_cadence (fun _ => 0) (fun _ => Nat.zero_le _)
     (init_flicker_noise (fun _ => 0)) rfl rfl 3 (by decide)).2⟩

end Streaming

namespace Streaming

lemma step_uninit (r : ℕ → ℕ) (s : FlickerState) (h : s.initialized = false) :
    dpi_flicker_noise r s = dpi_flicker_noise r (init_flicker_noise r) := by
  unfold dpi_flicker_noise
  have h1 : preS r s = init_flicker_noise r := by rw [preS]; simp [h]
  have h2 : preS r (init_flicker_noise r) = init_flicker_noise r := by
    rw [preS]; simp [init_flicker_noise]
  rw [h1, h2]

/-- C8: two freshly-constructed generator instances driven by the same
seeded stream produce identical sample sequences, whatever junk the
uninitialized source list, counter and stream position hold. -/
theorem streaming_determinism (r : ℕ → ℕ) (k : ℕ) (src1 src2 : List ℚ)
    (c1 c2 p1 p2 : ℕ) :
    outS r ⟨src1, c1, p1, false⟩ k = outS r ⟨src2, c2, p2, false⟩ k := by
  have hstep : ∀ (src : List ℚ) (c p : ℕ),
      dpi_flicker_noise r ⟨src, c, p, false⟩
        = dpi_flicker_noise r (init_flicker_noise r) :=
    fun src c p => step_uninit r ⟨src, c, p, false⟩ rfl
  have hsteps : ∀ m, stepsS r ⟨src1, c1, p1, false⟩ (m + 1)
      = stepsS r ⟨src2, c2, p2, false⟩ (m + 1) := by
    intro m
    induction m with
    | zero =>
      show (dpi_flicker_noise r ⟨src1, c1, p1, false⟩).2
          = (dpi_flicker_noise r ⟨src2, c2, p2, false⟩).2
      rw [hstep, hstep]
    | succ m ih =>
      show (dpi_flicker_noise r (stepsS r ⟨src1, c1, p1, false⟩ (m + 1))).2
          = (dpi_flicker_noise r (stepsS r ⟨src2, c2, p2, false⟩ (m + 1))).2
      rw [ih]
  cases k with
  | zero =>
    show (dpi_flicker_noise r ⟨src1, c1, p1, false⟩).1
        = (dpi_flicker_noise r ⟨src2, c2, p2, false⟩).1
    rw [hstep, hstep]
  | succ k =>
    unfold outS
    rw [hsteps k]

lemma first_step_eq (r r2 : ℕ → ℕ) (h : ∀ n, N_SOURCES ≤ n → r n = r2 n) :
    dpi_flicker_noise r freshS = dpi_flicker_noise r2 freshS := by
  have hpre1 : preS r freshS = init_flicker_noise r := by
    rw [preS]; simp [freshS]
  have hpre2 : preS r2 freshS = init_flicker_noise r2 := by
    rw [preS]; simp [freshS]
  unfold dpi_flicker_noise
  rw [hpre1, hpre2]
  dsimp only
  have e1 : updateLoop r (init_flicker_noise r).sample_counter 0
      (init_flicker_noise r).rng_pos (init_flicker_noise r).noise_sources
      = updateLoop r2 (init_flicker_noise r2).sample_counter 0
        (init_flicker_noise r2).rng_pos (init_flicker_noise r2).noise_sources := by
    show updateLoop r 0 0 N_SOURCES (init_flicker_noise r).noise_sources
        = updateLoop r2 0 0 N_SOURCES (init_flicker_noise r2).noise_sources
    rw [updateLoop_zero_indep r (init_flicker_noise r).noise_sources
      (init_flicker_noise r2).noise_sources 0 N_SOURCES
      (by simp [init_flicker_noise])]
    exact updateLoop_congr r r2 0 (init_flicker_noise r2).noise_sources 0
      N_SOURCES h
  rw [e1]
  rfl

lemma step_congr (r r2 : ℕ → ℕ) (p : ℕ) (hag : ∀ n, p ≤ n → r n = r2 n)
    (s : FlickerState) (hs : s.initialized = true) (hp : p ≤ s.rng_pos) :
    dpi_flicker_noise r s = dpi_flicker_noise r2 s := by
  have hpre : preS r s = s := by rw [preS]; simp [hs]
  have hpre2 : preS r2 s = s := by rw [preS]; simp [hs]
  unfold dpi_flicker_noise
  rw [hpre, hpre2]
  dsimp only
  rw [updateLoop_congr r r2 s.sample_counter s.noise_sources 0
    s.rng_pos (fun n hn => hag n (le_trans hp hn))]

lemma step_pos_mono (r : ℕ → ℕ) (s : FlickerState) (hs : s.initialized = true) :
    s.rng_pos ≤ (dpi_flicker_noise r s).2.rng_pos := by
  have hpre : preS r s = s := by rw [preS]; simp [hs]
  show s.rng_pos ≤ (updateLoop r (preS r s).sample_counter 0 (preS r s).rng_pos
      (preS r s).noise_sources).2
  rw [hpre, updateLoop_pos]
  omega

/-- C10: on the first call the counter is 0, a multiple of every power of
two, so all 10 sources drawn during initialization are overwritten before
the first sum; every output therefore depends only on the draws at stream
positions 10 and beyond, and two streams agreeing there give identical
output sequences. -/
theorem streaming_init_draws_unused (r r2 : ℕ → ℕ)
    (h : ∀ n, N_SOURCES ≤ n → r n = r2 n) (k : ℕ) :
    outS r freshS k = outS r2 freshS k := by
  have main : ∀ m, stepsS r freshS (m + 1) = stepsS r2 freshS (m + 1)
      ∧ (stepsS r freshS (m + 1)).initialized = true
      ∧ N_SOURCES ≤ (stepsS r freshS (m + 1)).rng_pos := by
    intro m
    induction m with
    | zero =>
      refine ⟨?_, rfl, ?_⟩
      · show (dpi_flicker_noise r freshS).2 = (dpi_flicker_noise r2 freshS).2
        rw [first_step_eq r r2 h]
      · show N_SOURCES ≤ (updateLoop r (preS r freshS).sample_counter 0
            (preS r freshS).rng_pos (preS r freshS).noise_sources).2
        rw [updateLoop_pos]
        have hfr : (preS r freshS).rng_pos = N_SOURCES := by
          simp [preS, freshS, init_flicker_noise]
        rw [hfr]
        omega
    | succ m ih =>
      obtain ⟨heq, hinit, hpos⟩ := ih
      have hstep : dpi_flicker_noise r (stepsS r freshS (m + 1))
          = dpi_flicker_noise r2 (stepsS r freshS (m + 1)) :=
        step_congr r r2 N_SOURCES h _ hinit hpos
      refine ⟨?_, rfl, ?_⟩
      · show (dpi_flicker_noise r (stepsS r freshS (m + 1))).2
            = (dpi_flicker_noise r2 (stepsS r2 freshS (m + 1))).2
        rw [← heq, hstep]
      · show N_SOURCES ≤ (dpi_flicker_noise r (stepsS r freshS (m + 1))).2.rng_pos
        have := step_pos_mono r (stepsS r freshS (m + 1)) hinit
        omega
  cases k with
  | zero =>
    show (dpi_flicker_noise r freshS).1 = (dpi_flicker_noise r2 freshS).1
    rw [first_step_eq r r2 h]
  | succ k =>
    obtain ⟨heq, hinit, hpos⟩ := main k
    unfold outS
    rw [← heq]
    exact congrArg Prod.fst (step_congr r r2 N_SOURCES h _ hinit hpos)

/-- Witness for streaming_init_draws_unused: two streams differing only on
the first 10 positions give the same first three samples. -/
theorem streaming_init_draws_unused_witness :
    outS (fun n => n) freshS 2
      = outS (fun n => if n < 10 then 999 else n) freshS 2 :=
  streaming_init_draws_unused (fun n => n) (fun n => if n < 10 then 999 else n)
    (fun n hn => by
      have h10 : ¬ n < 10 := by
        have : N_SOURCES = 10 := rfl
        omega
      simp [h10]) 2

end Streaming

namespace Batch

lemma mod_succ_if (n k : ℕ) (h : 0 < n) :
    (k + 1) % n = if n ≤ k % n + 1 then 0 else k % n + 1 := by
  have hk : k % n < n := Nat.mod_lt _ h
  have h1 : (k + 1) % n = (k % n + 1) % n := by
    conv_lhs => rw [← Nat.mod_add_div k n]
    rw [Nat.add_right_comm, Nat.add_mul_mod_self_left]
  by_cases hc : n ≤ k % n + 1
  · have he : k % n + 1 = n := by omega
    rw [h1, he, Nat.mod_self]
    simp
  · rw [h1, Nat.mod_eq_of_lt (by omega), if_neg hc]

lemma bStateAt_succ (res : Option (List ℚ)) (h : 0 < loadedOf res) (k : ℕ) :
    bStateAt res (k + 1) =
      { preloaded_noise := (init_flicker_noise_batch res freshB).preloaded_noise
        current_index := k % loadedOf res + 1
        initialized := true
        num_samples_loaded := loadedOf res
        diagCount := 1 } := by
  induction k with
  | zero =>
    show (dpi_flicker_noise_batch res freshB).2 = _
    rw [Nat.zero_mod]
    cases res with
    | none =>
      simp [dpi_flicker_noise_batch, load_if_needed, init_flicker_noise_batch,
        freshB, loadedOf, MAX_SAMPLES]
    | some ds =>
      have hn : ¬ (min ds.length MAX_SAMPLES ≤ 0) := by
        simp [loadedOf] at h
        omega
      simp [dpi_flicker_noise_batch, load_if_needed, init_flicker_noise_batch,
        freshB, loadedOf, hn]
  | succ k ih =>
    show (dpi_flicker_noise_batch res (bStateAt res (k + 1))).2 = _
    rw [ih]
    simp only [dpi_flicker_noise_batch, load_if_needed]
    rw [mod_succ_if (loadedOf res) k h]
    simp

lemma readIdxAt_eq (res : Option (List ℚ)) (h : 0 < loadedOf res) (k : ℕ) :
    readIdxAt res k = k % loadedOf res := by
  unfold readIdxAt
  rw [bStateAt_succ res h k]
  simp

end Batch

namespace Batch

/-- C1 fails as stated: with a resource that exists but yields zero
samples, the first call still reads the array, at cursor position 0, while
num_samples_loaded is 0, so the position is not below num_samples_loaded
at the moment of the read. -/
theorem batch_read_invariant_cex :
    ¬ (readIdxAt (some []) 0 < (bStateAt (some []) 1).num_samples_loaded) := by
  decide

/-- C1 amended: whenever the load left at least one sample
(full read, nonempty partial read, or the absent-file zero fallback that
sets the count to full capacity), every served sample is read at a cursor
position strictly below num_samples_loaded after the wrap check and before
the post-increment; only the zero-samples-read outcome escapes, reading at
position 0 with num_samples_loaded = 0. -/
theorem batch_read_invariant (res : Option (List ℚ)) (h : 0 < loadedOf res)
    (k : ℕ) :
    readIdxAt res k < (bStateAt res (k + 1)).num_samples_loaded := by
  rw [readIdxAt_eq res h k, bStateAt_succ res h k]
  exact Nat.mod_lt _ h

/-- Witness for batch_read_invariant at a one-sample resource. -/
theorem batch_read_invariant_witness :
    0 < loadedOf (some [(3 : ℚ)])
    ∧ readIdxAt (some [(3 : ℚ)]) 5
        < (bStateAt (some [(3 : ℚ)]) 6).num_samples_loaded :=
  ⟨by decide, batch_read_invariant (some [(3 : ℚ)]) (by decide) 5⟩

lemma step_initialized (res : Option (List ℚ)) (buf : ℕ → ℚ) (c n d : ℕ) :
    dpi_flicker_noise_batch res ⟨buf, c, true, n, d⟩
      = (buf (if n ≤ c then 0 else c),
         ⟨buf, (if n ≤ c then 0 else c) + 1, true, n, d⟩) := rfl

lemma outAtB_formula (ds : List ℚ) (h : 0 < ds.length) (k : ℕ) :
    outAtB (some ds) k = ds.getD (k % min ds.length MAX_SAMPLES) 0 := by
  have hn : 0 < loadedOf (some ds) := by
    simp only [loadedOf, MAX_SAMPLES]
    omega
  cases k with
  | zero =>
    show (dpi_flicker_noise_batch (some ds) freshB).1 = _
    simp only [loadedOf] at hn
    simp [dpi_flicker_noise_batch, load_if_needed, init_flicker_noise_batch,
      freshB, hn]
    intro hc
    exact absurd (hc h) (by norm_num [MAX_SAMPLES])
  | succ k =>
    show (dpi_flicker_noise_batch (some ds) (bStateAt (some ds) (k + 1))).1 = _
    rw [bStateAt_succ (some ds) hn k, step_initialized,
      ← mod_succ_if (loadedOf (some ds)) k hn]
    have hidx : (k + 1) % loadedOf (some ds) < min ds.length MAX_SAMPLES := by
      have hm := Nat.mod_lt (k + 1) hn
      simpa [loadedOf] using hm
    simp [init_flicker_noise_batch, freshB, loadedOf, hidx]
    simp only [loadedOf] at hidx
    intro hc
    rw [Nat.lt_min] at hidx
    exact absurd (hc hidx.1) (by omega)

/-- C3: with a present resource holding at least one sample, the batch
generator replays the loaded prefix in order with wraparound period
`min ds.length 4096`: call `k` returns element `k mod period`; in
particular a full 4096-sample resource makes call 4096 (the 4097th)
repeat call 0, and a 100-sample resource wraps with period 100, not
4096. -/
theorem batch_playback (ds : List ℚ) (h : 0 < ds.length) :
    (∀ k, outAtB (some ds) k = ds.getD (k % min ds.length MAX_SAMPLES) 0)
    ∧ (ds.length = MAX_SAMPLES →
        outAtB (some ds) MAX_SAMPLES = outAtB (some ds) 0)
    ∧ (ds.length = 100 →
        ∀ k, outAtB (some ds) (k + 100) = outAtB (some ds) k) := by
  refine ⟨outAtB_formula ds h, ?_, ?_⟩
  · intro hl
    rw [outAtB_formula ds h, outAtB_formula ds h, hl]
    simp [MAX_SAMPLES]
  · intro hl k
    rw [outAtB_formula ds h, outAtB_formula ds h, hl]
    have hm : min 100 MAX_SAMPLES = 100 := by simp [MAX_SAMPLES]
    rw [hm, Nat.add_mod_right]

/-- Witness for batch_playback at a two-sample resource. -/
theorem batch_playback_witness :
    0 < [(7 : ℚ), 9].length
    ∧ outAtB (some [(7 : ℚ), 9]) 3
        = [(7 : ℚ), 9].getD (3 % min [(7 : ℚ), 9].length MAX_SAMPLES) 0 :=
  ⟨by decide, (batch_playback [(7 : ℚ), 9] (by decide)).1 3⟩

end Batch

namespace Batch

/-- C4: with the resource absent, the loader fills the array with zeros,
sets num_samples_loaded to the full capacity 4096, marks the generator
initialized, every call returns 0, and exactly one diagnostic block is
emitted, on the first call (diagnostic count is min N 1 after N calls,
never more). -/
theorem batch_missing_resource (N : ℕ) :
    (∀ k, outAtB none k = 0)
    ∧ (bStateAt none N).diagCount = min N 1
    ∧ (1 ≤ N →
        (bStateAt none N).num_samples_loaded = MAX_SAMPLES
        ∧ (bStateAt none N).initialized = true
        ∧ ∀ i, (bStateAt none N).preloaded_noise i = 0) := by
  have h : 0 < loadedOf none := by norm_num [loadedOf, MAX_SAMPLES]
  refine ⟨?_, ?_, ?_⟩
  · intro k
    cases k with
    | zero => rfl
    | succ k =>
      show (dpi_flicker_noise_batch none (bStateAt none (k + 1))).1 = 0
      rw [bStateAt_succ none h k, step_initialized]
      rfl
  · cases N with
    | zero => rfl
    | succ N =>
      rw [bStateAt_succ none h N]
      have hm : min (N + 1) 1 = 1 := by omega
      rw [hm]
  · intro hN
    obtain ⟨M, rfl⟩ : ∃ M, N = M + 1 := ⟨N - 1, by omega⟩
    rw [bStateAt_succ none h M]
    exact ⟨rfl, rfl, fun i => rfl⟩

/-- Witness for batch_missing_resource at N = 2 calls. -/
theorem batch_missing_resource_witness :
    outAtB none 5 = 0
    ∧ (bStateAt none 2).diagCount = min 2 1
    ∧ (1 ≤ 2 ∧ (bStateAt none 2).num_samples_loaded = MAX_SAMPLES) :=
  ⟨(batch_missing_resource 2).1 5, (batch_missing_resource 2).2.1,
   by decide, ((batch_missing_resource 2).2.2 (by decide)).1⟩

lemma zero_loaded_state (k : ℕ) :
    bStateAt (some []) (k + 1) =
      { preloaded_noise := (init_flicker_noise_batch (some []) freshB).preloaded_noise
        current_index := 1
        initialized := true
        num_samples_loaded := 0
        diagCount := 1 } := by
  induction k with
  | zero => rfl
  | succ k ih =>
    show (dpi_flicker_noise_batch (some []) (bStateAt (some []) (k + 1))).2 = _
    rw [ih]
    rfl

/-- C5: with a resource that exists but yields zero samples
(num_samples_loaded = 0), no call ever reads outside the 4096-slot array
(the wrap check forces every read to position 0) and every call returns
the placeholder 0 held in the zero-initialised static storage. -/
theorem batch_zero_loaded_safe (k : ℕ) :
    readIdxAt (some []) k < MAX_SAMPLES ∧ outAtB (some []) k = 0 := by
  constructor
  · unfold readIdxAt
    rw [zero_loaded_state k]
    norm_num [MAX_SAMPLES]
  · cases k with
    | zero => rfl
    | succ k =>
      show (dpi_flicker_noise_batch (some []) (bStateAt (some []) (k + 1))).1 = 0
      rw [zero_loaded_state k]
      rfl

/-- C9: the load is idempotent: once initialized is set, invoking the
lazy-load guard again (even against a now-different resource, as after a
transient failure) leaves the state untouched; consequently pre-loading
explicitly and then sampling gives exactly the same output sequence as
sampling from the uninitialized state. -/
theorem batch_load_idempotent :
    (∀ (res2 : Option (List ℚ)) (s : BatchState), s.initialized = true →
      load_if_needed res2 s = s)
    ∧ (∀ (res : Option (List ℚ)) (k : ℕ),
      outB res (load_if_needed res freshB) k = outB res freshB k) := by
  constructor
  · intro res2 s hs
    rw [load_if_needed]
    simp [hs]
  · intro res k
    have hfirst : dpi_flicker_noise_batch res (init_flicker_noise_batch res freshB)
        = dpi_flicker_noise_batch res freshB := by
      unfold dpi_flicker_noise_batch
      have h1 : load_if_needed res freshB = init_flicker_noise_batch res freshB := by
        rw [load_if_needed]
        simp [freshB]
      have h2 : load_if_needed res (init_flicker_noise_batch res freshB)
          = init_flicker_noise_batch res freshB := by
        rw [load_if_needed]
        cases res with
        | none => simp [init_flicker_noise_batch]
        | some ds => simp [init_flicker_noise_batch]
      rw [h1, h2]
    have hl : load_if_needed res freshB = init_flicker_noise_batch res freshB := by
      rw [load_if_needed]
      simp [freshB]
    have hsteps : ∀ m, stepsB res (init_flicker_noise_batch res freshB) (m + 1)
        = stepsB res freshB (m + 1) := by
      intro m
      induction m with
      | zero =>
        show (dpi_flicker_noise_batch res (init_flicker_noise_batch res freshB)).2
            = (dpi_flicker_noise_batch res freshB).2
        rw [hfirst]
      | succ m ih =>
        show (dpi_flicker_noise_batch res
            (stepsB res (init_flicker_noise_batch res freshB) (m + 1))).2
          = (dpi_flicker_noise_batch res (stepsB res freshB (m + 1))).2
        rw [ih]
    unfold outB
    rw [hl]
    cases k with
    | zero =>
      show (dpi_flicker_noise_batch res (init_flicker_noise_batch res freshB)).1
          = (dpi_flicker_noise_batch res freshB).1
      rw [hfirst]
    | succ k => rw [hsteps k]

/-- Witness for batch_load_idempotent: a loaded state absorbs a second
load attempt against a different resource, and pre-loading does not change
the third sample. -/
theorem batch_load_idempotent_witness :
    (init_flicker_noise_batch (some [(1 : ℚ)]) freshB).initialized = true
    ∧ load_if_needed none (init_flicker_noise_batch (some [(1 : ℚ)]) freshB)
        = init_flicker_noise_batch (some [(1 : ℚ)]) freshB
    ∧ outB (some [(1 : ℚ)]) (load_if_needed (some [(1 : ℚ)]) freshB) 2
        = outB (some [(1 : ℚ)]) freshB 2 :=
  ⟨rfl, batch_load_idempotent.1 none _ rfl,
   batch_load_idempotent.2 (some [(1 : ℚ)]) 2⟩

end Batch
